import Mathlib

/-!
Shallow embedding of landlab's mesh construction and reduction subsystem
(`landlab/graph/voronoi/voronoi_to_graph.py`): the `VoronoiDelaunay` builder,
the `VoronoiDelaunayToGraph` reducer with its perimeter classification, and the
generic `drop_element` removal/renumbering routine.

Numpy arrays are embedded as `List Int` (1-D) and `List (List Int)` (2-D); the
sentinel for "no element" is `-1`, exactly as in the source.  Coordinate values
(`x_of_node`, ...) are only ever moved between arrays, never computed with, so
their scalar type is irrelevant to every claim; we store them as `Int`.
-/

namespace VoronoiToGraph

/-- Mask built by `is_a_keeper = np.full(dims[at], True); is_a_keeper[dropped_ids] = False`:
index `i` is kept iff it does not occur among the dropped ids. -/
def isKeeper (dropped : List Nat) (i : Nat) : Bool :=
  decide (i ∉ dropped)

/-- Boolean-mask row selection `var.values[mask]`: keep exactly the rows whose
index satisfies the mask, in their original relative order. -/
def keepRows {α : Type} (mask : Nat → Bool) (xs : List α) : List α :=
  (xs.enum.filter (fun p => mask p.1)).map Prod.snd

/-- The in-place decrement loop of `drop_element`,
`for id_ in dropped_ids[::-1]: array[array > id_] -= 1`, applied to a single
entry; `ds` is the processing order of the loop (descending when the caller
passes the reversed sorted ids). -/
def decrementLoop (ds : List Nat) (v : Int) : Int :=
  ds.foldl (fun x d => if (d : Int) < x then x - 1 else x) v

/-- The sentinel-marking step `array[np.in1d(array, dropped_ids)] = -1`,
applied to a single entry. -/
def markDropped (ds : List Nat) (v : Int) : Int :=
  if v ∈ ds.map (fun d : Nat => (d : Int)) then -1 else v

/-- `dropped_ids.sort()`: ascending sort of the ids passed to `drop_element`. -/
def sortIds (ids : List Nat) : List Nat :=
  List.insertionSort (· ≤ ·) ids

/-- Step (b) of `drop_element` on a single array entry: mark entries equal to a
dropped id with the sentinel `-1`, then run the descending decrement loop over
the sorted dropped ids. -/
def renumber (sortedDropped : List Nat) (v : Int) : Int :=
  decrementLoop sortedDropped.reverse (markDropped sortedDropped v)

/-- `renumber` lifted over a 2-D array (the source renumbers through the
flattened view `var.values.reshape((-1,))`, which touches every entry). -/
def renumber2 (sortedDropped : List Nat) (rows : List (List Int)) : List (List Int) :=
  rows.map (List.map (renumber sortedDropped))

/-- The mesh: one field per variable of the `xr.Dataset` assembled by
`VoronoiDelaunay.__init__` and `VoronoiDelaunayToGraph.__init__`.  The fields
`node` and `corner` are the identity data arrays (`np.arange`) that the source
attaches to the only two kinds that carry coordinates. -/
structure Mesh where
  node : List Int
  x_of_node : List Int
  y_of_node : List Int
  corner : List Int
  x_of_corner : List Int
  y_of_corner : List Int
  nodes_at_link : List (List Int)
  nodes_at_patch : List (List Int)
  corners_at_face : List (List Int)
  corners_at_cell : List (List Int)
  n_corners_at_cell : List Int
  nodes_at_face : List (List Int)
  cell_at_node : List Int
  links_at_patch : List (List Int)
  node_at_cell : List Int
  faces_at_cell : List (List Int)
  deriving DecidableEq, Repr

/-- The six element kinds (`at` argument of `drop_element`). -/
inductive Kind where
  | node | corner | link | face | patch | cell
  deriving DecidableEq, Repr

/-- `self._mesh.dims[at]`: the size of the index space of a kind, read off a
representative array carrying that dimension. -/
def dims (m : Mesh) : Kind → Nat
  | .node => m.node.length
  | .corner => m.corner.length
  | .link => m.nodes_at_link.length
  | .face => m.corners_at_face.length
  | .patch => m.nodes_at_patch.length
  | .cell => m.corners_at_cell.length

/-- `VoronoiDelaunayToGraph.drop_element(ids, at)`.  The source sorts the ids,
builds the keep mask, then (i) for `at` in the dataset coords (`node`,
`corner`) filters the coordinate arrays and replaces the identity array by
`np.arange(len(x))`, (ii) filters every array whose name matches the suffix
regex `at_<at>$` by the mask, and (iii) renumbers in place every array whose
name matches the prefix regex `^<at>(s|es)?_at_`.  The per-kind field updates
below are exactly the variables of the dataset matched by those regexes. -/
def drop_element (m : Mesh) (ids : List Nat) (at_ : Kind) : Mesh :=
  let dropped := sortIds ids
  let mask := isKeeper dropped
  match at_ with
  | .node =>
      -- coords: x_of_node, y_of_node, identity `node`; suffix `at_node$`:
      -- cell_at_node; prefix `^node(s)?_at_`: nodes_at_link, nodes_at_patch,
      -- nodes_at_face, node_at_cell.
      { m with
        x_of_node := keepRows mask m.x_of_node
        y_of_node := keepRows mask m.y_of_node
        node := (List.range (keepRows mask m.x_of_node).length).map (fun i : Nat => (i : Int))
        cell_at_node := keepRows mask m.cell_at_node
        nodes_at_link := renumber2 dropped m.nodes_at_link
        nodes_at_patch := renumber2 dropped m.nodes_at_patch
        nodes_at_face := renumber2 dropped m.nodes_at_face
        node_at_cell := m.node_at_cell.map (renumber dropped) }
  | .corner =>
      -- coords: x_of_corner, y_of_corner, identity `corner`; no variable name
      -- ends in `at_corner`; prefix `^corner(s)?_at_`: corners_at_face,
      -- corners_at_cell (`n_corners_at_cell` does not match the anchored
      -- prefix regex).
      { m with
        x_of_corner := keepRows mask m.x_of_corner
        y_of_corner := keepRows mask m.y_of_corner
        corner := (List.range (keepRows mask m.x_of_corner).length).map (fun i : Nat => (i : Int))
        corners_at_face := renumber2 dropped m.corners_at_face
        corners_at_cell := renumber2 dropped m.corners_at_cell }
  | .link =>
      -- suffix `at_link$`: nodes_at_link; prefix `^link(s)?_at_`: links_at_patch.
      { m with
        nodes_at_link := keepRows mask m.nodes_at_link
        links_at_patch := renumber2 dropped m.links_at_patch }
  | .face =>
      -- suffix `at_face$`: corners_at_face, nodes_at_face; prefix
      -- `^face(s)?_at_`: faces_at_cell.
      { m with
        corners_at_face := keepRows mask m.corners_at_face
        nodes_at_face := keepRows mask m.nodes_at_face
        faces_at_cell := renumber2 dropped m.faces_at_cell }
  | .patch =>
      -- suffix `at_patch$`: nodes_at_patch, links_at_patch; no variable name
      -- matches the prefix `^patch(es)?_at_`.
      { m with
        nodes_at_patch := keepRows mask m.nodes_at_patch
        links_at_patch := keepRows mask m.links_at_patch }
  | .cell =>
      -- suffix `at_cell$`: corners_at_cell, n_corners_at_cell, node_at_cell,
      -- faces_at_cell; prefix `^cell(s)?_at_`: cell_at_node.
      { m with
        corners_at_cell := keepRows mask m.corners_at_cell
        n_corners_at_cell := keepRows mask m.n_corners_at_cell
        node_at_cell := keepRows mask m.node_at_cell
        faces_at_cell := keepRows mask m.faces_at_cell
        cell_at_node := m.cell_at_node.map (renumber dropped) }

/-- Modelled from the spec: the jagged/ragged index table
(`landlab.utils.jaggedarray`, not in src/) — `max_width` equals the maximum
row length across all rows. -/
def maxRowLen (rows : List (List Int)) : Nat :=
  rows.foldr (fun r acc => max r.length acc) 0

/-- Modelled from the spec: `jaggedarray.unravel(jagged.array, jagged.offset, pad=-1)`
as used by `VoronoiDelaunay._corners_at_cell` (the jaggedarray utility is not
in src/) — a deterministic padded layout: row `i`'s valid entries occupy
positions `0..len(row_i)-1` in the original order and every later position
holds the sentinel `-1`; the width is the maximum row length. -/
def to_padded_matrix (rows : List (List Int)) : List (List Int) :=
  rows.map (fun r => r ++ List.replicate (maxRowLen rows - r.length) (-1))

/-- Output of the geometric black-box primitive (`scipy.spatial.Delaunay` and
`scipy.spatial.Voronoi`), which the spec treats as returning point coordinates,
vertex coordinates, ridge/point adjacency, triangle vertex lists and per-point
region membership. -/
structure VoronoiPrimitive where
  points : List (Int × Int)
  vertices : List (Int × Int)
  ridge_points : List (List Int)
  simplices : List (List Int)
  ridge_vertices : List (List Int)
  regions : List (List Int)
  point_region : List Int
  deriving DecidableEq, Repr

/-- `VoronoiDelaunay.__init__`: assemble the unreduced mesh from the
primitive's output.  `nodes_at_link` and `nodes_at_face` are both
`voronoi.ridge_points`; `corners_at_cell` is the sentinel-padded matrix over
`voronoi.regions`; `n_corners_at_cell` is the region lengths;
`cell_at_node` is `voronoi.point_region`.  The arrays added later by
`VoronoiDelaunayToGraph.__init__` start empty. -/
def voronoiDelaunayMesh (v : VoronoiPrimitive) : Mesh where
  node := (List.range v.points.length).map (fun i : Nat => (i : Int))
  x_of_node := v.points.map Prod.fst
  y_of_node := v.points.map Prod.snd
  corner := (List.range v.vertices.length).map (fun i : Nat => (i : Int))
  x_of_corner := v.vertices.map Prod.fst
  y_of_corner := v.vertices.map Prod.snd
  nodes_at_link := v.ridge_points
  nodes_at_patch := v.simplices
  corners_at_face := v.ridge_vertices
  corners_at_cell := to_padded_matrix v.regions
  n_corners_at_cell := v.regions.map (fun r => (r.length : Int))
  nodes_at_face := v.ridge_points
  cell_at_node := v.point_region
  links_at_patch := []
  node_at_cell := []
  faces_at_cell := []

/-- Does the two-entry row `row` hold the unordered pair `a, b`? -/
def pairMatches (row : List Int) (a b : Int) : Bool :=
  (row.getD 0 (-1) == a && row.getD 1 (-1) == b)
    || (row.getD 0 (-1) == b && row.getD 1 (-1) == a)

/-- Modelled from the spec: the pair lookup performed by
`map_sorted_rolling_pairs` (graph.sort helper, not in src/) — find the element
whose unordered pair matches, `-1` when none matches. -/
def findPair (pairs : List (List Int)) (a b : Int) : Int :=
  match (List.range pairs.length).find? (fun i => pairMatches (pairs.getD i []) a b) with
  | some i => (i : Int)
  | none => -1

/-- `VoronoiDelaunayToGraph._links_at_patch(nodes_at_link, nodes_at_patch)`:
for every row, resolve each rolling (cyclically consecutive) pair of entries to
the element of `nodes_at_link` whose own unordered pair matches it.  Used both
for `links_at_patch` (links from patch nodes) and for `faces_at_cell` (faces
from cell corners). -/
def _links_at_patch (nodes_at_link nodes_at_patch : List (List Int)) : List (List Int) :=
  nodes_at_patch.map (fun row =>
    (List.range row.length).map (fun k =>
      findPair nodes_at_link (row.getD k (-1)) (row.getD ((k + 1) % row.length) (-1))))

/-- Modelled from the spec: `reverse_one_to_one` (graph.sort helper, not in
src/) — `node_at_cell` is the exact inverse of `cell_at_node`: entry `c` is the
unique index `n` with `ids[n] = c`, and `-1` when no index maps to `c`.  The
output carries the cell dimension. -/
def reverse_one_to_one (ids : List Int) (n_out : Nat) : List Int :=
  (List.range n_out).map (fun c : Nat =>
    match (List.range ids.length).find? (fun n => ids.getD n (-1) == (c : Int)) with
    | some n => (n : Int)
    | none => -1)

/-- State of a `VoronoiDelaunayToGraph` object: the mesh plus the
`_perimeter_links` attribute slot.  `__init__` assigns the attribute only when
the `perimeter_links` argument is not `None`; when the argument is omitted the
attribute is never created and reading it raises `AttributeError`.  We model
the slot as an `Option`: `none` means "never assigned". -/
structure GraphState where
  mesh : Mesh
  perimeter_links : Option (List (List Int))
  deriving DecidableEq, Repr

/-- `VoronoiDelaunayToGraph.is_perimeter_face`:
`np.any(self.corners_at_face == -1, axis=1)`. -/
def is_perimeter_face (m : Mesh) : List Bool :=
  m.corners_at_face.map (fun r => r.any (fun v => v == -1))

/-- Modelled from the spec: `id_array_contains` (compiled helper of
`landlab.graph.voronoi`, not in src/) — for each row, whether `value` occurs
among the row's first `sizes[i]` entries, the valid prefix whose length is
tracked in the parallel count array. -/
def id_array_contains (rows : List (List Int)) (sizes : List Int) (value : Int) : List Bool :=
  List.zipWith (fun row n => (row.take n.toNat).contains value) rows sizes

/-- `VoronoiDelaunayToGraph.is_perimeter_cell`: a cell is a perimeter cell if
its valid corner list contains the sentinel, or its corner count is below 3. -/
def is_perimeter_cell (m : Mesh) : List Bool :=
  List.zipWith (fun b n => b || decide (n < (3 : Int)))
    (id_array_contains m.corners_at_cell m.n_corners_at_cell (-1)) m.n_corners_at_cell

/-- Modelled from the spec: `pair_isin_sorted_list` (graph.sort helper, not in
src/) — for each node pair of `rows`, whether that unordered pair occurs among
the explicitly supplied perimeter node pairs. -/
def pair_isin (pairs : List (List Int)) (rows : List (List Int)) : List Bool :=
  rows.map (fun r => pairs.any (fun p => pairMatches p (r.getD 0 (-1)) (r.getD 1 (-1))))

/-- `VoronoiDelaunayToGraph.is_perimeter_link`.  Reading
`self._perimeter_links` raises `AttributeError` when the attribute was never
assigned (`none`); otherwise the attribute holds the supplied pairs, which are
matched against `nodes_at_link`.  The `else` fallback to `is_perimeter_face`
in the source is unreachable as written, because `__init__` only ever assigns
the attribute a non-`None` value. -/
def is_perimeter_link (g : GraphState) : Option (List Bool) :=
  match g.perimeter_links with
  | none => none
  | some pl => some (pair_isin pl g.mesh.nodes_at_link)

/-- `np.where` over a boolean vector: the indices holding `true`, ascending. -/
def whereTrue (bs : List Bool) : List Nat :=
  (List.range bs.length).filter (fun i => bs.getD i false)

/-- `VoronoiDelaunayToGraph.unbound_corners`: the non-sentinel corners of the
faces that are perimeter faces but whose classification disagrees with the
perimeter-link classification.  `none` propagates the `AttributeError` of
`is_perimeter_link`. -/
def unbound_corners (g : GraphState) : Option (List Int) :=
  (is_perimeter_link g).map (fun ipl =>
    let ipf := is_perimeter_face g.mesh
    let mismatch := List.zipWith (fun pf plk => pf && (plk != pf)) ipf ipl
    let faces_to_drop := whereTrue mismatch
    let cs := (faces_to_drop.map (fun f => g.mesh.corners_at_face.getD f [])).flatten
    cs.filter (fun c => decide (0 ≤ c)))

/-- `VoronoiDelaunayToGraph.drop_corners(corners)`: drop the given corners,
then drop every *link* at an index whose `corners_at_face` row has no entry
left different from `-1`, then drop every patch whose `links_at_patch` row has
a negative entry. -/
def drop_corners (g : GraphState) (corners : List Int) : GraphState :=
  let m1 := drop_element g.mesh (corners.map Int.toNat) .corner
  let is_a_link := m1.corners_at_face.map (fun r => r.any (fun v => v != -1))
  let m2 := drop_element m1 (whereTrue (is_a_link.map (fun b => !b))) .link
  let is_a_patch := m2.links_at_patch.map (fun r => r.all (fun v => decide (0 ≤ v)))
  let m3 := drop_element m2 (whereTrue (is_a_patch.map (fun b => !b))) .patch
  { g with mesh := m3 }

/-- `VoronoiDelaunayToGraph.drop_perimeter_faces`. -/
def drop_perimeter_faces (g : GraphState) : GraphState :=
  { g with mesh := drop_element g.mesh (whereTrue (is_perimeter_face g.mesh)) .face }

/-- `VoronoiDelaunayToGraph.drop_perimeter_cells`. -/
def drop_perimeter_cells (g : GraphState) : GraphState :=
  { g with mesh := drop_element g.mesh (whereTrue (is_perimeter_cell g.mesh)) .cell }

/-- `VoronoiDelaunayToGraph.__init__`: build the unreduced mesh, derive
`links_at_patch`, `node_at_cell` and `faces_at_cell`, then drop the unbound
corners, the perimeter faces and the perimeter cells.  Returns `none` when the
construction raises — the `AttributeError` in `is_perimeter_link` when the
`perimeter_links` argument was omitted. -/
def voronoiDelaunayToGraph (v : VoronoiPrimitive)
    (perimeter_links : Option (List (List Int))) : Option GraphState :=
  let m0 := voronoiDelaunayMesh v
  let m1 := { m0 with
    links_at_patch := _links_at_patch m0.nodes_at_link m0.nodes_at_patch
    node_at_cell := reverse_one_to_one m0.cell_at_node (dims m0 .cell) }
  let m2 := { m1 with faces_at_cell := _links_at_patch m1.corners_at_face m1.corners_at_cell }
  let g0 : GraphState := ⟨m2, perimeter_links⟩
  match unbound_corners g0 with
  | none => none
  | some uc =>
      some (drop_perimeter_cells (drop_perimeter_faces (drop_corners g0 uc)))

/-- The variable names of the dataset.  `canonicalOrder` below fixes one
iteration order for `self._mesh.variables.items()`; the order-insensitivity
theorem quantifies over every permutation of it. -/
inductive VarName where
  | node | x_of_node | y_of_node | corner | x_of_corner | y_of_corner
  | nodes_at_link | nodes_at_patch | corners_at_face | corners_at_cell
  | n_corners_at_cell | nodes_at_face | cell_at_node
  | links_at_patch | node_at_cell | faces_at_cell
  deriving DecidableEq, Repr

/-- Which variable names match the anchored prefix regex `^<at>(s|es)?_at_` of
`drop_element` for each kind (note `n_corners_at_cell` does not start with
`corner`, and no variable starts with `patch`). -/
def prefixMatch : Kind → VarName → Bool
  | .node, .nodes_at_link => true
  | .node, .nodes_at_patch => true
  | .node, .nodes_at_face => true
  | .node, .node_at_cell => true
  | .corner, .corners_at_face => true
  | .corner, .corners_at_cell => true
  | .link, .links_at_patch => true
  | .face, .faces_at_cell => true
  | .cell, .cell_at_node => true
  | _, _ => false

/-- Apply `f` in place to every entry of one named variable (the source writes
through the flattened view `var.values.reshape((-1,))`). -/
def updateVar (n : VarName) (f : Int → Int) (m : Mesh) : Mesh :=
  match n with
  | .node => { m with node := m.node.map f }
  | .x_of_node => { m with x_of_node := m.x_of_node.map f }
  | .y_of_node => { m with y_of_node := m.y_of_node.map f }
  | .corner => { m with corner := m.corner.map f }
  | .x_of_corner => { m with x_of_corner := m.x_of_corner.map f }
  | .y_of_corner => { m with y_of_corner := m.y_of_corner.map f }
  | .nodes_at_link => { m with nodes_at_link := m.nodes_at_link.map (List.map f) }
  | .nodes_at_patch => { m with nodes_at_patch := m.nodes_at_patch.map (List.map f) }
  | .corners_at_face => { m with corners_at_face := m.corners_at_face.map (List.map f) }
  | .corners_at_cell => { m with corners_at_cell := m.corners_at_cell.map (List.map f) }
  | .n_corners_at_cell => { m with n_corners_at_cell := m.n_corners_at_cell.map f }
  | .nodes_at_face => { m with nodes_at_face := m.nodes_at_face.map (List.map f) }
  | .cell_at_node => { m with cell_at_node := m.cell_at_node.map f }
  | .links_at_patch => { m with links_at_patch := m.links_at_patch.map (List.map f) }
  | .node_at_cell => { m with node_at_cell := m.node_at_cell.map f }
  | .faces_at_cell => { m with faces_at_cell := m.faces_at_cell.map (List.map f) }

/-- The renumbering pass of `drop_element` as the source executes it: iterate
over the dataset variables in the given order and renumber, in place, each
variable matching the prefix regex. -/
def renumberPass (k : Kind) (ds : List Nat) (order : List VarName) (m : Mesh) : Mesh :=
  order.foldl (fun m' n => if prefixMatch k n then updateVar n (renumber ds) m' else m') m

/-- The row-filtering phase of `drop_element`: the coords branch (for `node`
and `corner`) plus the suffix-regex matches.  This phase collects its updates
in a name-keyed dict and applies them with `Dataset.update`, so it carries no
iteration-order dependence of its own. -/
def filterPhase (m : Mesh) (mask : Nat → Bool) : Kind → Mesh
  | .node =>
      { m with
        x_of_node := keepRows mask m.x_of_node
        y_of_node := keepRows mask m.y_of_node
        node := (List.range (keepRows mask m.x_of_node).length).map (fun i : Nat => (i : Int))
        cell_at_node := keepRows mask m.cell_at_node }
  | .corner =>
      { m with
        x_of_corner := keepRows mask m.x_of_corner
        y_of_corner := keepRows mask m.y_of_corner
        corner := (List.range (keepRows mask m.x_of_corner).length).map (fun i : Nat => (i : Int)) }
  | .link => { m with nodes_at_link := keepRows mask m.nodes_at_link }
  | .face =>
      { m with
        corners_at_face := keepRows mask m.corners_at_face
        nodes_at_face := keepRows mask m.nodes_at_face }
  | .patch =>
      { m with
        nodes_at_patch := keepRows mask m.nodes_at_patch
        links_at_patch := keepRows mask m.links_at_patch }
  | .cell =>
      { m with
        corners_at_cell := keepRows mask m.corners_at_cell
        n_corners_at_cell := keepRows mask m.n_corners_at_cell
        node_at_cell := keepRows mask m.node_at_cell
        faces_at_cell := keepRows mask m.faces_at_cell }

/-- One fixed iteration order over all dataset variables. -/
def canonicalOrder : List VarName :=
  [.node, .x_of_node, .y_of_node, .corner, .x_of_corner, .y_of_corner,
   .nodes_at_link, .nodes_at_patch, .corners_at_face, .corners_at_cell,
   .n_corners_at_cell, .nodes_at_face, .cell_at_node,
   .links_at_patch, .node_at_cell, .faces_at_cell]

/-- `drop_element` with the iteration order of the renumbering loop made
explicit. -/
def dropElementOrd (m : Mesh) (ids : List Nat) (k : Kind) (order : List VarName) : Mesh :=
  renumberPass k (sortIds ids) order (filterPhase m (isKeeper (sortIds ids)) k)

/-- Concrete primitive output used by the witnesses: one interior node `0`
surrounded by three hull nodes, three Voronoi corners forming the interior
cell, six ridges (three bounded, three unbounded) and three triangles. -/
def exPrim : VoronoiPrimitive where
  points := [(0, 0), (2, 0), (0, 2), (-2, -2)]
  vertices := [(1, 0), (0, 1), (-1, -1)]
  ridge_points := [[0, 1], [0, 2], [0, 3], [1, 2], [2, 3], [3, 1]]
  simplices := [[0, 1, 2], [0, 2, 3], [0, 3, 1]]
  ridge_vertices := [[0, 1], [1, 2], [2, 0], [1, -1], [2, -1], [0, -1]]
  regions := [[0, 1, 2], [-1, 1, 0], [-1, 2, 1], [-1, 0, 2]]
  point_region := [0, 1, 2, 3]

/-- The full hull boundary of `exPrim`, supplied as explicit perimeter links. -/
def exPerimeter : List (List Int) := [[1, 2], [2, 3], [3, 1]]

/-- A partial boundary for `exPrim`: the hull link `3-1` is left out, so the
unbounded face dual to it is a perimeter face that is not a perimeter link. -/
def exPerimeterPartial : List (List Int) := [[1, 2], [2, 3]]

/-- Concrete mesh for the `drop_corners` cascade: two corners, one face
holding both, one link, no patches or cells. -/
def exMesh5 : Mesh where
  node := [0, 1]
  x_of_node := [0, 1]
  y_of_node := [0, 0]
  corner := [0, 1]
  x_of_corner := [0, 1]
  y_of_corner := [0, 0]
  nodes_at_link := [[0, 1]]
  nodes_at_patch := []
  corners_at_face := [[0, 1]]
  corners_at_cell := []
  n_corners_at_cell := []
  nodes_at_face := [[0, 1]]
  cell_at_node := [-1, -1]
  links_at_patch := []
  node_at_cell := []
  faces_at_cell := []

/-- Graph state wrapping `exMesh5`. -/
def exG5 : GraphState := ⟨exMesh5, some [[0, 1]]⟩

/-- Claim-side closed form of the renumbering rule of `drop_element`: an entry
equal to a dropped id becomes the sentinel `-1`; any other entry is decremented
by the number of dropped ids strictly below it (for negative entries that
number is zero, so they are unchanged). -/
def specRenumber (ids : List Nat) (v : Int) : Int :=
  if v ∈ ids.map (fun d : Nat => (d : Int)) then -1
  else v - (ids.countP (fun d : Nat => decide ((d : Int) < v)) : Int)

/-- Claim-side characterization of row filtering: the rows at the in-range
indices not listed in `ids`, in ascending index order. -/
def keptOf {α : Type} (ids : List Nat) (xs : List α) (dflt : α) : List α :=
  ((List.range xs.length).filter (fun i => decide (i ∉ ids))).map (fun i => xs.getD i dflt)

/-- Well-formedness of one kind's dimension: every dataset array carrying that
dimension has the dimension's length (xarray enforces this invariant for every
dataset; arbitrary `Mesh` values need it as a hypothesis).  The representative
array that defines `dims` is left out. -/
def kindLenWF (m : Mesh) : Kind → Prop
  | .node => m.x_of_node.length = dims m .node ∧ m.y_of_node.length = dims m .node ∧
      m.cell_at_node.length = dims m .node
  | .corner => m.x_of_corner.length = dims m .corner ∧ m.y_of_corner.length = dims m .corner
  | .link => True
  | .face => m.nodes_at_face.length = dims m .face
  | .patch => m.links_at_patch.length = dims m .patch
  | .cell => m.n_corners_at_cell.length = dims m .cell ∧ m.node_at_cell.length = dims m .cell ∧
      m.faces_at_cell.length = dims m .cell

/-- Claim-side statement of the row-filtering effect of `drop_element` for one
kind: every per-element array of that kind is reduced to its kept rows in the
original relative order, and the identity array (for the two kinds that carry
one) is rebuilt as `0..new_count-1`. -/
def rowFilterClaim (ids : List Nat) (m mNew : Mesh) : Kind → Prop
  | .node =>
      mNew.x_of_node = keptOf ids m.x_of_node 0 ∧
      mNew.y_of_node = keptOf ids m.y_of_node 0 ∧
      mNew.cell_at_node = keptOf ids m.cell_at_node 0 ∧
      mNew.node = (List.range (keptOf ids m.x_of_node 0).length).map (fun i : Nat => (i : Int))
  | .corner =>
      mNew.x_of_corner = keptOf ids m.x_of_corner 0 ∧
      mNew.y_of_corner = keptOf ids m.y_of_corner 0 ∧
      mNew.corner = (List.range (keptOf ids m.x_of_corner 0).length).map (fun i : Nat => (i : Int))
  | .link => mNew.nodes_at_link = keptOf ids m.nodes_at_link []
  | .face =>
      mNew.corners_at_face = keptOf ids m.corners_at_face [] ∧
      mNew.nodes_at_face = keptOf ids m.nodes_at_face []
  | .patch =>
      mNew.nodes_at_patch = keptOf ids m.nodes_at_patch [] ∧
      mNew.links_at_patch = keptOf ids m.links_at_patch []
  | .cell =>
      mNew.corners_at_cell = keptOf ids m.corners_at_cell [] ∧
      mNew.n_corners_at_cell = keptOf ids m.n_corners_at_cell 0 ∧
      mNew.node_at_cell = keptOf ids m.node_at_cell 0 ∧
      mNew.faces_at_cell = keptOf ids m.faces_at_cell []

/-- Claim-side statement of the cross-reference renumbering of `drop_element`
for one kind: every array whose entries reference that kind is rewritten
entrywise by the closed-form rule `specRenumber` (no array cross-references
the patch kind). -/
def crossRenumberClaim (ids : List Nat) (m mNew : Mesh) : Kind → Prop
  | .node =>
      mNew.nodes_at_link = m.nodes_at_link.map (List.map (specRenumber ids)) ∧
      mNew.nodes_at_patch = m.nodes_at_patch.map (List.map (specRenumber ids)) ∧
      mNew.nodes_at_face = m.nodes_at_face.map (List.map (specRenumber ids)) ∧
      mNew.node_at_cell = m.node_at_cell.map (specRenumber ids)
  | .corner =>
      mNew.corners_at_face = m.corners_at_face.map (List.map (specRenumber ids)) ∧
      mNew.corners_at_cell = m.corners_at_cell.map (List.map (specRenumber ids))
  | .link => mNew.links_at_patch = m.links_at_patch.map (List.map (specRenumber ids))
  | .face => mNew.faces_at_cell = m.faces_at_cell.map (List.map (specRenumber ids))
  | .patch => True
  | .cell => mNew.cell_at_node = m.cell_at_node.map (specRenumber ids)

/-- `drop_corners` with the renumbering-loop iteration order made explicit. -/
def drop_cornersOrd (g : GraphState) (corners : List Int) (order : List VarName) : GraphState :=
  let m1 := dropElementOrd g.mesh (corners.map Int.toNat) .corner order
  let is_a_link := m1.corners_at_face.map (fun r => r.any (fun v => v != -1))
  let m2 := dropElementOrd m1 (whereTrue (is_a_link.map (fun b => !b))) .link order
  let is_a_patch := m2.links_at_patch.map (fun r => r.all (fun v => decide (0 ≤ v)))
  let m3 := dropElementOrd m2 (whereTrue (is_a_patch.map (fun b => !b))) .patch order
  { g with mesh := m3 }

/-- `drop_perimeter_faces` with the iteration order made explicit. -/
def drop_perimeter_facesOrd (g : GraphState) (order : List VarName) : GraphState :=
  { g with mesh := dropElementOrd g.mesh (whereTrue (is_perimeter_face g.mesh)) .face order }

/-- `drop_perimeter_cells` with the iteration order made explicit. -/
def drop_perimeter_cellsOrd (g : GraphState) (order : List VarName) : GraphState :=
  { g with mesh := dropElementOrd g.mesh (whereTrue (is_perimeter_cell g.mesh)) .cell order }

/-- The full pipeline with the iteration order of every renumbering loop made
explicit. -/
def voronoiDelaunayToGraphOrd (v : VoronoiPrimitive)
    (perimeter_links : Option (List (List Int))) (order : List VarName) : Option GraphState :=
  let m0 := voronoiDelaunayMesh v
  let m1 := { m0 with
    links_at_patch := _links_at_patch m0.nodes_at_link m0.nodes_at_patch
    node_at_cell := reverse_one_to_one m0.cell_at_node (dims m0 .cell) }
  let m2 := { m1 with faces_at_cell := _links_at_patch m1.corners_at_face m1.corners_at_cell }
  let g0 : GraphState := ⟨m2, perimeter_links⟩
  match unbound_corners g0 with
  | none => none
  | some uc =>
      some (drop_perimeter_cellsOrd
        (drop_perimeter_facesOrd (drop_cornersOrd g0 uc order) order) order)

/-- The reduced graph produced by the pipeline on `exPrim` with the full
explicit perimeter: exactly one interior cell survives. -/
def exReduced : GraphState where
  mesh :=
    { node := [0, 1, 2, 3]
      x_of_node := [0, 2, 0, -2]
      y_of_node := [0, 0, 2, -2]
      corner := [0, 1, 2]
      x_of_corner := [1, 0, -1]
      y_of_corner := [0, 1, -1]
      nodes_at_link := [[0, 1], [0, 2], [0, 3], [1, 2], [2, 3], [3, 1]]
      nodes_at_patch := [[0, 1, 2], [0, 2, 3], [0, 3, 1]]
      corners_at_face := [[0, 1], [1, 2], [2, 0]]
      corners_at_cell := [[0, 1, 2]]
      n_corners_at_cell := [3]
      nodes_at_face := [[0, 1], [0, 2], [0, 3]]
      cell_at_node := [0, -1, -1, -1]
      links_at_patch := [[0, 3, 1], [1, 4, 2], [2, 5, 0]]
      node_at_cell := [0]
      faces_at_cell := [[0, 1, 2]] }
  perimeter_links := some [[1, 2], [2, 3], [3, 1]]

/-- The mesh assembled by `VoronoiDelaunayToGraph.__init__` before any drop:
the unreduced mesh plus `links_at_patch`, `node_at_cell` and `faces_at_cell`. -/
def meshPre (v : VoronoiPrimitive) : Mesh :=
  let m0 := voronoiDelaunayMesh v
  let m1 := { m0 with
    links_at_patch := _links_at_patch m0.nodes_at_link m0.nodes_at_patch
    node_at_cell := reverse_one_to_one m0.cell_at_node (dims m0 .cell) }
  { m1 with faces_at_cell := _links_at_patch m1.corners_at_face m1.corners_at_cell }

/-- The unbound corner list computed during a successful construction. -/
def ucPre (v : VoronoiPrimitive) (pls : List (List Int)) : List Int :=
  (unbound_corners ⟨meshPre v, some pls⟩).getD []

/-- The state produced by a successful construction (explicit perimeter). -/
def pipelineResult (v : VoronoiPrimitive) (pls : List (List Int)) : GraphState :=
  drop_perimeter_cells (drop_perimeter_faces (drop_corners ⟨meshPre v, some pls⟩ (ucPre v pls)))

theorem sortIds_perm (l : List Nat) : (sortIds l).Perm l :=
  List.perm_insertionSort _ l

theorem sortIds_sorted (l : List Nat) : List.Pairwise (· ≤ ·) (sortIds l) :=
  List.sorted_insertionSort _ l

theorem sortIds_eq_of_perm {l₁ l₂ : List Nat} (h : l₁.Perm l₂) :
    sortIds l₁ = sortIds l₂ := by
  refine List.eq_of_perm_of_sorted ?_ (sortIds_sorted l₁) (sortIds_sorted l₂)
  exact ((sortIds_perm l₁).trans h).trans (sortIds_perm l₂).symm

theorem mem_sortIds {a : Nat} {l : List Nat} : a ∈ sortIds l ↔ a ∈ l :=
  (sortIds_perm l).mem_iff

theorem sortIds_nodup {l : List Nat} (h : l.Nodup) : (sortIds l).Nodup :=
  (sortIds_perm l).nodup_iff.mpr h

theorem decrementLoop_of_neg {v : Int} (hv : v < 0) (ds : List Nat) :
    decrementLoop ds v = v := by
  induction ds with
  | nil => rfl
  | cons d rest ih =>
      have hlt : ¬ ((d : Int) < v) := by
        have : (0 : Int) ≤ (d : Int) := Int.ofNat_nonneg d
        omega
      simp [decrementLoop, List.foldl_cons, hlt] at *
      exact ih

theorem decrementLoop_desc {ds : List Nat} (hd : List.Pairwise (· > ·) ds) :
    ∀ v : Int, (∀ d ∈ ds, (d : Int) ≠ v) →
      decrementLoop ds v = v - (ds.countP (fun d : Nat => decide ((d : Int) < v)) : Int) := by
  induction ds with
  | nil => intro v _; simp [decrementLoop]
  | cons d rest ih =>
      intro v hv
      have hrest : List.Pairwise (· > ·) rest := hd.sublist (List.sublist_cons_self d rest)
      have hdrest : ∀ d' ∈ rest, d' < d := fun d' hmem => (List.pairwise_cons.mp hd).1 d' hmem
      by_cases hlt : (d : Int) < v
      · have hne : (d : Int) ≠ v := hv d (List.mem_cons_self d rest)
        have hstep : decrementLoop (d :: rest) v = decrementLoop rest (v - 1) := by
          simp [decrementLoop, List.foldl_cons, hlt]
        have hv' : ∀ d' ∈ rest, (d' : Int) ≠ v - 1 := by
          intro d' hmem
          have h1 : d' < d := hdrest d' hmem
          have h2 : ((d' : Int) < (d : Int)) := by exact_mod_cast h1
          omega
        have hcount : rest.countP (fun d' : Nat => decide ((d' : Int) < v - 1))
            = rest.countP (fun d' : Nat => decide ((d' : Int) < v)) := by
          refine List.countP_congr (fun d' hmem => ?_)
          have h1 : d' < d := hdrest d' hmem
          have h2 : ((d' : Int) < (d : Int)) := by exact_mod_cast h1
          simp only [decide_eq_true_eq]
          constructor <;> intro <;> omega
        rw [hstep, ih hrest (v - 1) hv', hcount]
        have : (d :: rest).countP (fun d' : Nat => decide ((d' : Int) < v))
            = rest.countP (fun d' : Nat => decide ((d' : Int) < v)) + 1 := by
          rw [List.countP_cons]; simp [hlt]
        rw [this]
        push_cast
        ring
      · have hstep : decrementLoop (d :: rest) v = decrementLoop rest v := by
          simp [decrementLoop, List.foldl_cons, hlt]
        have hv' : ∀ d' ∈ rest, (d' : Int) ≠ v := fun d' hmem =>
          hv d' (List.mem_cons_of_mem d hmem)
        rw [hstep, ih hrest v hv']
        have : (d :: rest).countP (fun d' : Nat => decide ((d' : Int) < v))
            = rest.countP (fun d' : Nat => decide ((d' : Int) < v)) := by
          rw [List.countP_cons]; simp [hlt]
        rw [this]

theorem renumber_eq_specRenumber {ids : List Nat} (hnd : ids.Nodup) (v : Int) :
    renumber (sortIds ids) v = specRenumber ids v := by
  by_cases hmem : v ∈ ids.map (fun d : Nat => (d : Int))
  · have hmem' : v ∈ (sortIds ids).map (fun d : Nat => (d : Int)) := by
      rcases List.mem_map.mp hmem with ⟨d, hd, hdv⟩
      exact List.mem_map.mpr ⟨d, mem_sortIds.mpr hd, hdv⟩
    rw [renumber, markDropped, if_pos hmem', specRenumber, if_pos hmem]
    exact decrementLoop_of_neg (by omega) _
  · have hmem' : v ∉ (sortIds ids).map (fun d : Nat => (d : Int)) := by
      intro hc
      rcases List.mem_map.mp hc with ⟨d, hd, hdv⟩
      exact hmem (List.mem_map.mpr ⟨d, mem_sortIds.mp hd, hdv⟩)
    rw [renumber, markDropped, if_neg hmem', specRenumber, if_neg hmem]
    have hnodup : (sortIds ids).Nodup := sortIds_nodup hnd
    have hstrict : List.Pairwise (· < ·) (sortIds ids) :=
      ((sortIds_sorted ids).and hnodup).imp
        (fun hab => lt_of_le_of_ne hab.1 hab.2)
    have hdesc : List.Pairwise (· > ·) (sortIds ids).reverse :=
      List.pairwise_reverse.mpr hstrict
    have hne : ∀ d ∈ (sortIds ids).reverse, (d : Int) ≠ v := by
      intro d hd hdv
      exact hmem' (List.mem_map.mpr ⟨d, List.mem_reverse.mp hd, hdv⟩)
    rw [decrementLoop_desc hdesc v hne, List.countP_reverse]
    have : (sortIds ids).countP (fun d : Nat => decide ((d : Int) < v))
        = ids.countP (fun d : Nat => decide ((d : Int) < v)) :=
      (sortIds_perm ids).countP_eq _
    rw [this]

theorem enumFrom_filter_map {α : Type} (xs : List α) :
    ∀ (k : Nat) (p : Nat → Bool) (d : α),
      ((List.enumFrom k xs).filter (fun q => p q.1)).map Prod.snd
        = ((List.range xs.length).filter (fun i => p (k + i))).map (fun i => xs.getD i d) := by
  induction xs with
  | nil => intro k p d; simp
  | cons x xs ih =>
      intro k p d
      rw [List.enumFrom_cons, List.filter_cons]
      have hlen : (x :: xs).length = xs.length + 1 := rfl
      rw [hlen, List.range_succ_eq_map, List.filter_cons]
      have htail :
          (List.filter (fun i => p (k + i)) (List.map Nat.succ (List.range xs.length))).map
              (fun i => (x :: xs).getD i d)
            = ((List.range xs.length).filter (fun i => p (k + 1 + i))).map
              (fun i => xs.getD i d) := by
        rw [List.filter_map, List.map_map]
        have hcong : List.filter ((fun i => p (k + i)) ∘ Nat.succ) (List.range xs.length)
            = List.filter (fun i => p (k + 1 + i)) (List.range xs.length) := by
          refine List.filter_congr (fun i _ => ?_)
          have : k + i.succ = k + 1 + i := by omega
          simp [Function.comp, this]
        rw [hcong]
        refine List.map_congr_left (fun i _ => ?_)
        simp [List.getD_cons_succ]
      by_cases hp : p k
      · have hp0 : p (k + 0) = true := by simpa using hp
        simp only [hp, if_pos, hp0, List.map_cons]
        rw [List.getD_cons_zero, ih (k + 1) p d, htail]
      · have hp0 : ¬ (p (k + 0) = true) := by simpa using hp
        simp only [hp, if_neg, hp0, Bool.false_eq_true, not_false_eq_true]
        rw [ih (k + 1) p d, htail]

theorem keepRows_eq {α : Type} (p : Nat → Bool) (xs : List α) (d : α) :
    keepRows p xs = ((List.range xs.length).filter p).map (fun i => xs.getD i d) := by
  rw [keepRows, List.enum, enumFrom_filter_map xs 0 p d]
  refine congrArg _ (List.filter_congr (fun i _ => by simp))

theorem keepRows_isKeeper_eq_keptOf {α : Type} (ids : List Nat) (xs : List α) (d : α) :
    keepRows (isKeeper (sortIds ids)) xs = keptOf ids xs d := by
  rw [keepRows_eq (isKeeper (sortIds ids)) xs d, keptOf]
  refine congrArg _ (List.filter_congr (fun i _ => ?_))
  simp [isKeeper, mem_sortIds]

theorem countP_range_mem {D : List Nat} (hnd : D.Nodup) (n : Nat) :
    (List.range n).countP (fun i => decide (i ∈ D)) = D.countP (fun d : Nat => decide (d < n)) := by
  rw [List.countP_eq_length_filter, List.countP_eq_length_filter]
  refine List.Perm.length_eq ?_
  refine (List.perm_ext_iff_of_nodup ((List.nodup_range n).filter _) (hnd.filter _)).mpr ?_
  intro a
  simp only [List.mem_filter, List.mem_range, decide_eq_true_eq]
  tauto

theorem keptOf_length {α : Type} {D : List Nat} {xs : List α} (d : α)
    (hnd : D.Nodup) (hv : ∀ i ∈ D, i < xs.length) :
    (keptOf D xs d).length = xs.length - D.length := by
  rw [keptOf, List.length_map, ← List.countP_eq_length_filter]
  have hsplit := List.length_eq_countP_add_countP (fun i => decide (i ∈ D)) (List.range xs.length)
  have hmem : (List.range xs.length).countP (fun i => decide (i ∈ D)) = D.length := by
    rw [countP_range_mem hnd]
    refine List.countP_eq_length.mpr (fun a ha => by simpa using hv a ha)
  have hcong : (List.range xs.length).countP (fun i => decide (i ∉ D))
      = (List.range xs.length).countP (fun a => decide (¬(decide (a ∈ D) = true))) := by
    refine List.countP_congr (fun a _ => by simp)
  rw [hcong]
  rw [List.length_range] at hsplit
  omega

theorem getD_filter_range_rank {p : Nat → Bool} {n i : Nat} (hi : i < n) (hp : p i = true) :
    ((List.range i).filter p).length < ((List.range n).filter p).length ∧
    ((List.range n).filter p).getD ((List.range i).filter p).length 0 = i := by
  have hn : n = (i + 1) + (n - (i + 1)) := by omega
  rw [hn, List.range_add, List.filter_append, List.range_succ, List.filter_append]
  have hfi : List.filter p [i] = [i] := by simp [hp]
  rw [hfi, List.append_assoc]
  set A := (List.range i).filter p with hA
  set B := ([i] ++ (List.map (fun x => i + 1 + x) (List.range (n - (i + 1)))).filter p)
    with hB
  have hBlen : 0 < B.length := by simp [hB]
  have hlen : A.length < (A ++ B).length := by
    rw [List.length_append]; omega
  refine ⟨hlen, ?_⟩
  rw [List.getD_eq_getElem _ _ hlen]
  rw [List.getElem_append_right (Nat.le_refl A.length)]
  simp [hB]

theorem rank_eq {D : List Nat} (hnd : D.Nodup) (i : Nat) :
    (List.range i).countP (fun j => decide (j ∉ D)) = i - D.countP (fun d : Nat => decide (d < i))
      ∧ D.countP (fun d : Nat => decide (d < i)) ≤ i := by
  have hsplit := List.length_eq_countP_add_countP (fun j => decide (j ∈ D)) (List.range i)
  have hmem : (List.range i).countP (fun j => decide (j ∈ D)) = D.countP (fun d : Nat => decide (d < i)) :=
    countP_range_mem hnd i
  have hcong : (List.range i).countP (fun a => decide (¬(decide (a ∈ D) = true)))
      = (List.range i).countP (fun j => decide (j ∉ D)) := by
    refine List.countP_congr (fun a _ => by simp)
  rw [List.length_range, hcong, hmem] at hsplit
  have hle : D.countP (fun d : Nat => decide (d < i)) ≤ i := by omega
  exact ⟨by omega, hle⟩

theorem renumber_rank {D : List Nat} (hnd : D.Nodup) {i : Nat} (hni : i ∉ D) :
    renumber (sortIds D) (i : Int)
      = ((List.range i).countP (fun j => decide (j ∉ D)) : Int) := by
  rw [renumber_eq_specRenumber hnd]
  have hmem : ((i : Int) ∉ D.map (fun d : Nat => (d : Int))) := by
    intro hc
    rcases List.mem_map.mp hc with ⟨d, hd, hdv⟩
    have : d = i := by exact_mod_cast hdv
    exact hni (this ▸ hd)
  rw [specRenumber, if_neg hmem]
  have hcnt : D.countP (fun d : Nat => decide ((d : Int) < (i : Int)))
      = D.countP (fun d : Nat => decide (d < i)) := by
    refine List.countP_congr (fun d _ => by simp)
  rw [hcnt]
  rcases rank_eq hnd i with ⟨hrk, hle⟩
  rw [hrk]
  have : ((i - D.countP (fun d : Nat => decide (d < i)) : Nat) : Int)
      = (i : Int) - (D.countP (fun d : Nat => decide (d < i)) : Int) := by
    omega
  omega

theorem getD_map {α β : Type} (f : α → β) (xs : List α) {i : Nat} (hi : i < xs.length)
    (d : β) (d' : α) : (xs.map f).getD i d = f (xs.getD i d') := by
  have hi' : i < (xs.map f).length := by simpa using hi
  rw [List.getD_eq_getElem _ _ hi', List.getD_eq_getElem _ _ hi, List.getElem_map]

theorem le_maxRowLen {rows : List (List Int)} {r : List Int} (h : r ∈ rows) :
    r.length ≤ maxRowLen rows := by
  induction rows with
  | nil => cases h
  | cons a l ih =>
      rcases List.mem_cons.mp h with h | h
      · subst h; simp only [maxRowLen, List.foldr_cons]; omega
      · have := ih h; simp only [maxRowLen, List.foldr_cons] at *; omega

/-- C2: after `drop_element(ids, kind)` with distinct valid ids, every entry of
every array cross-referencing that kind follows the closed-form rule — a value
among the dropped ids becomes the sentinel `-1`, and every surviving value `i`
becomes `i` minus the number of dropped ids strictly below `i`. -/
theorem drop_element_renumbers_cross_references :
    ∀ (m : Mesh) (ids : List Nat) (k : Kind),
      ids.Nodup → (∀ i ∈ ids, i < dims m k) →
      crossRenumberClaim ids m (drop_element m ids k) k := by
  intro m ids k hnd _hv
  have hf : renumber (sortIds ids) = specRenumber ids :=
    funext (renumber_eq_specRenumber hnd)
  cases k <;> simp [crossRenumberClaim, drop_element, renumber2, hf]

/-- Witness for C2 at a concrete mesh: dropping corner `0` of `exMesh5`. -/
theorem drop_element_renumbers_cross_references_witness :
    List.Nodup [0] ∧
      crossRenumberClaim [0] exMesh5 (drop_element exMesh5 [0] .corner) .corner :=
  ⟨by decide, drop_element_renumbers_cross_references exMesh5 [0] .corner
    (by decide) (by decide)⟩

/-- C10: `drop_element` is insensitive to the order in which the dropped ids
are supplied, because they are sorted before the mask and the renumbering loop
are applied. -/
theorem drop_element_insensitive_to_id_order :
    ∀ (m : Mesh) (k : Kind) (ids ids2 : List Nat),
      ids.Nodup → (∀ i ∈ ids, i < dims m k) → ids2.Perm ids →
      drop_element m ids2 k = drop_element m ids k := by
  intro m k ids ids2 _hnd _hv hperm
  unfold drop_element
  rw [sortIds_eq_of_perm hperm]

/-- Witness for C10: dropping corners `[1, 0]` equals dropping `[0, 1]`. -/
theorem drop_element_insensitive_to_id_order_witness :
    List.Perm [1, 0] [0, 1] ∧
      drop_element exMesh5 [1, 0] .corner = drop_element exMesh5 [0, 1] .corner :=
  ⟨by decide, drop_element_insensitive_to_id_order exMesh5 .corner [0, 1] [1, 0]
    (by decide) (by decide) (by decide)⟩

/-- C7: a cell is classified as a perimeter cell exactly when the sentinel
occurs among the first `n_corners_at_cell[c]` slots of its corner row, or its
corner count is below 3; padding slots beyond the valid length are ignored. -/
theorem is_perimeter_cell_characterization :
    ∀ (m : Mesh) (c : Nat),
      c < m.corners_at_cell.length → c < m.n_corners_at_cell.length →
      ((is_perimeter_cell m).getD c false = true ↔
        (-1 : Int) ∈ (m.corners_at_cell.getD c []).take (m.n_corners_at_cell.getD c 0).toNat
          ∨ m.n_corners_at_cell.getD c 0 < 3) := by
  intro m c h1 h2
  have hlen : c < (is_perimeter_cell m).length := by
    simp only [is_perimeter_cell, id_array_contains, List.length_zipWith]
    omega
  rw [List.getD_eq_getElem _ _ hlen, List.getD_eq_getElem _ _ h1, List.getD_eq_getElem _ _ h2]
  simp only [is_perimeter_cell, id_array_contains, List.getElem_zipWith]
  simp [List.elem_iff, List.contains]

/-- Witness for C7 on the unreduced example mesh: cell `1` of `exPrim` lists a
sentinel corner within its valid prefix, hence is a perimeter cell. -/
theorem is_perimeter_cell_characterization_witness :
    ((is_perimeter_cell (voronoiDelaunayMesh exPrim)).getD 1 false = true ↔
      (-1 : Int) ∈ ((voronoiDelaunayMesh exPrim).corners_at_cell.getD 1 []).take
          ((voronoiDelaunayMesh exPrim).n_corners_at_cell.getD 1 0).toNat
        ∨ (voronoiDelaunayMesh exPrim).n_corners_at_cell.getD 1 0 < 3) :=
  is_perimeter_cell_characterization (voronoiDelaunayMesh exPrim) 1 (by decide) (by decide)

/-- C9: the padded matrix has width equal to the maximum row length, and row
`i` holds its entries in their original order at positions `0..len-1` with the
sentinel `-1` at every later position. -/
theorem to_padded_matrix_layout :
    ∀ rows : List (List Int),
      (∀ r ∈ rows, ∀ x ∈ r, 0 ≤ x) →
      (∀ r ∈ to_padded_matrix rows, r.length = maxRowLen rows) ∧
      (∀ i, i < rows.length →
        (∀ j, j < (rows.getD i []).length →
          ((to_padded_matrix rows).getD i []).getD j 0 = (rows.getD i []).getD j 0) ∧
        (∀ j, (rows.getD i []).length ≤ j → j < maxRowLen rows →
          ((to_padded_matrix rows).getD i []).getD j 0 = -1)) := by
  intro rows _hnn
  constructor
  · intro r hr
    rcases List.mem_map.mp hr with ⟨r0, hr0, rfl⟩
    have := le_maxRowLen hr0
    simp only [List.length_append, List.length_replicate]
    omega
  · intro i hi
    have hrow : (to_padded_matrix rows).getD i []
        = (rows.getD i []) ++ List.replicate (maxRowLen rows - (rows.getD i []).length) (-1) := by
      rw [to_padded_matrix, getD_map _ rows hi _ []]
    rw [hrow]
    have hle : (rows.getD i []).length ≤ maxRowLen rows := by
      refine le_maxRowLen ?_
      rw [List.getD_eq_getElem _ _ hi]
      exact List.getElem_mem hi
    constructor
    · intro j hj
      exact List.getD_append _ _ _ _ hj
    · intro j hj1 hj2
      have hlt : j < ((rows.getD i []) ++ List.replicate (maxRowLen rows - (rows.getD i []).length) (-1)).length := by
        simp only [List.length_append, List.length_replicate]
        omega
      rw [List.getD_eq_getElem _ _ hlt, List.getElem_append_right hj1]
      exact List.getElem_replicate _ _

/-- Witness for C9: in the padded matrix of a ragged input, row 1 keeps its
entry at position 0 and carries the sentinel at a padding position. -/
theorem to_padded_matrix_layout_witness :
    maxRowLen [[0, 1, 2], [3], []] = 3 ∧
      ((to_padded_matrix [[0, 1, 2], [3], []]).getD 1 []).getD 2 0 = -1 :=
  ⟨by decide,
    ((to_padded_matrix_layout [[0, 1, 2], [3], []] (by decide)).2 1
      (by decide)).2 2 (by decide) (by decide)⟩

/-- C4 (code bug): with the `perimeter_links` argument omitted, construction
always fails — `is_perimeter_link` reads `self._perimeter_links`, which
`__init__` never assigned in that case, so the `AttributeError` aborts the
pipeline before the fallback to `is_perimeter_face` can run. -/
theorem pipeline_without_perimeter_links_raises :
    ∀ v : VoronoiPrimitive, voronoiDelaunayToGraph v none = none :=
  fun _ => rfl

theorem mem_whereTrue {bs : List Bool} {i : Nat} :
    i ∈ whereTrue bs ↔ i < bs.length ∧ bs.getD i false = true := by
  simp [whereTrue, List.mem_filter, List.mem_range]

theorem renumber2_length (ds : List Nat) (rows : List (List Int)) :
    (renumber2 ds rows).length = rows.length := by
  simp [renumber2]

theorem keptOf_whereTrue_not {α : Type} (bs : List Bool) (xs : List α) (d : α)
    (hlen : xs.length = bs.length) :
    keptOf (whereTrue (bs.map (fun b => !b))) xs d
      = ((List.range bs.length).filter (fun i => bs.getD i false)).map (fun i => xs.getD i d) := by
  rw [keptOf, hlen]
  refine congrArg _ (List.filter_congr (fun i hi => ?_))
  have hi' : i < bs.length := List.mem_range.mp hi
  have hmap : (bs.map (fun b => !b)).getD i false = !(bs.getD i false) :=
    getD_map _ bs hi' false false
  have : i ∈ whereTrue (bs.map (fun b => !b)) ↔ ¬ (bs.getD i false = true) := by
    rw [mem_whereTrue, hmap]
    simp [hi']
  by_cases hb : bs.getD i false = true
  · simp [this, hb]
  · simp [this, hb]

theorem drop_element_patch_keeps_nodes_at_link (m : Mesh) (ids : List Nat) :
    (drop_element m ids .patch).nodes_at_link = m.nodes_at_link := rfl

theorem drop_element_patch_keeps_corners_at_face (m : Mesh) (ids : List Nat) :
    (drop_element m ids .patch).corners_at_face = m.corners_at_face := rfl

theorem drop_element_link_keeps_corners_at_face (m : Mesh) (ids : List Nat) :
    (drop_element m ids .link).corners_at_face = m.corners_at_face := rfl

theorem drop_element_link_keeps_nodes_at_patch (m : Mesh) (ids : List Nat) :
    (drop_element m ids .link).nodes_at_patch = m.nodes_at_patch := rfl

theorem drop_element_corner_keeps_nodes_at_patch (m : Mesh) (ids : List Nat) :
    (drop_element m ids .corner).nodes_at_patch = m.nodes_at_patch := rfl

theorem drop_element_corner_keeps_links_at_patch (m : Mesh) (ids : List Nat) :
    (drop_element m ids .corner).links_at_patch = m.links_at_patch := rfl

theorem drop_element_corner_keeps_nodes_at_link (m : Mesh) (ids : List Nat) :
    (drop_element m ids .corner).nodes_at_link = m.nodes_at_link := rfl

theorem drop_element_corner_corners_at_face (m : Mesh) (ids : List Nat) :
    (drop_element m ids .corner).corners_at_face = renumber2 (sortIds ids) m.corners_at_face := rfl

theorem drop_element_link_nodes_at_link (m : Mesh) (ids : List Nat) :
    (drop_element m ids .link).nodes_at_link
      = keepRows (isKeeper (sortIds ids)) m.nodes_at_link := rfl

theorem drop_element_link_links_at_patch (m : Mesh) (ids : List Nat) :
    (drop_element m ids .link).links_at_patch = renumber2 (sortIds ids) m.links_at_patch := rfl

theorem drop_element_patch_nodes_at_patch (m : Mesh) (ids : List Nat) :
    (drop_element m ids .patch).nodes_at_patch
      = keepRows (isKeeper (sortIds ids)) m.nodes_at_patch := rfl

/-- C5 counterexample: dropping both corners of `exG5` leaves the face with no
valid corner pair in place (`corners_at_face` still holds the all-sentinel
row), while it is the *link* at that index that was dropped. -/
theorem drop_corners_keeps_all_sentinel_face :
    (drop_corners exG5 [0, 1]).mesh.corners_at_face = [[-1, -1]] ∧
      (drop_corners exG5 [0, 1]).mesh.nodes_at_link = [] := by
  constructor <;> decide

/-- C5 (amended): `drop_corners(ids)` removes the given corners and then
cascades, dropping every *link* whose same-index `corners_at_face` row (after
the corner removal) has no entry left different from the sentinel, and then
every patch whose `links_at_patch` row (after the link renumbering) has a
negative entry; `corners_at_face` itself is not filtered, so the all-sentinel
faces survive `drop_corners` (they fall later, to `drop_perimeter_faces`). -/
theorem drop_corners_cascade :
    ∀ (g : GraphState) (ids : List Int),
      g.mesh.corners_at_face.length = g.mesh.nodes_at_link.length →
      g.mesh.nodes_at_patch.length = g.mesh.links_at_patch.length →
      ((drop_corners g ids).mesh.nodes_at_link
          = ((List.range (drop_element g.mesh (ids.map Int.toNat) .corner).corners_at_face.length).filter
              (fun f => ((drop_element g.mesh (ids.map Int.toNat) .corner).corners_at_face.getD f []).any
                (fun x => x != -1))).map
              (fun f => (drop_element g.mesh (ids.map Int.toNat) .corner).nodes_at_link.getD f [])) ∧
      ((drop_corners g ids).mesh.nodes_at_patch
          = ((List.range (drop_element (drop_element g.mesh (ids.map Int.toNat) .corner)
                (whereTrue (((drop_element g.mesh (ids.map Int.toNat) .corner).corners_at_face.map
                  (fun r => r.any (fun x => x != -1))).map (fun b => !b))) .link).links_at_patch.length).filter
              (fun p => ((drop_element (drop_element g.mesh (ids.map Int.toNat) .corner)
                (whereTrue (((drop_element g.mesh (ids.map Int.toNat) .corner).corners_at_face.map
                  (fun r => r.any (fun x => x != -1))).map (fun b => !b))) .link).links_at_patch.getD p []).all
                (fun x => decide (0 ≤ x)))).map
              (fun p => (drop_element g.mesh (ids.map Int.toNat) .corner).nodes_at_patch.getD p [])) ∧
      ((drop_corners g ids).mesh.corners_at_face
          = (drop_element g.mesh (ids.map Int.toNat) .corner).corners_at_face) := by
  intro g ids hf hp
  have hmesh : (drop_corners g ids).mesh
      = drop_element
          (drop_element (drop_element g.mesh (ids.map Int.toNat) .corner)
            (whereTrue (((drop_element g.mesh (ids.map Int.toNat) .corner).corners_at_face.map
              (fun r => r.any (fun x => x != -1))).map (fun b => !b))) .link)
          (whereTrue (((drop_element (drop_element g.mesh (ids.map Int.toNat) .corner)
              (whereTrue (((drop_element g.mesh (ids.map Int.toNat) .corner).corners_at_face.map
                (fun r => r.any (fun x => x != -1))).map (fun b => !b))) .link).links_at_patch.map
            (fun r => r.all (fun x => decide (0 ≤ x)))).map (fun b => !b))) .patch := rfl
  set m1 := drop_element g.mesh (ids.map Int.toNat) .corner with hm1
  set bsl := m1.corners_at_face.map (fun r => r.any (fun x => x != -1)) with hbsl
  set m2 := drop_element m1 (whereTrue (bsl.map (fun b => !b))) .link with hm2
  set bsp := m2.links_at_patch.map (fun r => r.all (fun x => decide (0 ≤ x))) with hbsp
  set m3 := drop_element m2 (whereTrue (bsp.map (fun b => !b))) .patch with hm3
  refine ⟨?_, ?_, ?_⟩
  · -- link cascade
    rw [hmesh]
    rw [drop_element_patch_keeps_nodes_at_link]
    rw [hm2, drop_element_link_nodes_at_link,
      keepRows_isKeeper_eq_keptOf (whereTrue (bsl.map (fun b => !b))) m1.nodes_at_link []]
    have hlen1 : m1.nodes_at_link.length = bsl.length := by
      rw [hbsl, List.length_map, hm1, drop_element_corner_keeps_nodes_at_link,
        drop_element_corner_corners_at_face, renumber2_length]
      exact hf.symm
    rw [keptOf_whereTrue_not bsl m1.nodes_at_link [] hlen1]
    have hlen2 : bsl.length = m1.corners_at_face.length := by
      rw [hbsl, List.length_map]
    rw [hlen2]
    refine congrArg _ (List.filter_congr (fun f hfr => ?_))
    have hflt : f < m1.corners_at_face.length := List.mem_range.mp hfr
    have : bsl.getD f false = (m1.corners_at_face.getD f []).any (fun x => x != -1) := by
      rw [hbsl]; exact getD_map _ _ hflt false []
    rw [this]
  · -- patch cascade
    rw [hmesh]
    rw [drop_element_patch_nodes_at_patch,
      keepRows_isKeeper_eq_keptOf (whereTrue (bsp.map (fun b => !b))) m2.nodes_at_patch []]
    have hnp2 : m2.nodes_at_patch = g.mesh.nodes_at_patch := by
      rw [hm2, drop_element_link_keeps_nodes_at_patch, hm1,
        drop_element_corner_keeps_nodes_at_patch]
    have hlen1 : m2.nodes_at_patch.length = bsp.length := by
      rw [hbsp, List.length_map, hnp2, hm2, drop_element_link_links_at_patch,
        renumber2_length, hm1, drop_element_corner_keeps_links_at_patch]
      exact hp
    rw [keptOf_whereTrue_not bsp m2.nodes_at_patch [] hlen1]
    have hlen2 : bsp.length = m2.links_at_patch.length := by
      rw [hbsp, List.length_map]
    rw [hlen2, hnp2]
    refine congrArg _ (List.filter_congr (fun p hpr => ?_))
    have hplt : p < m2.links_at_patch.length := List.mem_range.mp hpr
    have : bsp.getD p false = (m2.links_at_patch.getD p []).all (fun x => decide (0 ≤ x)) := by
      rw [hbsp]; exact getD_map _ _ hplt false []
    rw [this]
  · -- faces untouched
    rw [hmesh, drop_element_patch_keeps_corners_at_face, drop_element_link_keeps_corners_at_face]

/-- Witness for the amended C5 at `exG5`, dropping both corners. -/
theorem drop_corners_cascade_witness :
    exMesh5.corners_at_face.length = exMesh5.nodes_at_link.length ∧
      (drop_corners exG5 [0, 1]).mesh.nodes_at_link
        = ((List.range (drop_element exG5.mesh (([0, 1] : List Int).map Int.toNat) .corner).corners_at_face.length).filter
            (fun f => ((drop_element exG5.mesh (([0, 1] : List Int).map Int.toNat) .corner).corners_at_face.getD f []).any
              (fun x => x != -1))).map
            (fun f => (drop_element exG5.mesh (([0, 1] : List Int).map Int.toNat) .corner).nodes_at_link.getD f []) :=
  ⟨by decide, (drop_corners_cascade exG5 [0, 1] (by decide) (by decide)).1⟩

theorem getD_zipWith {α β γ : Type} (f : α → β → γ) (l₁ : List α) (l₂ : List β) {i : Nat}
    (h1 : i < l₁.length) (h2 : i < l₂.length) (d : γ) (d1 : α) (d2 : β) :
    (List.zipWith f l₁ l₂).getD i d = f (l₁.getD i d1) (l₂.getD i d2) := by
  have hz : i < (List.zipWith f l₁ l₂).length := by
    rw [List.length_zipWith]; omega
  rw [List.getD_eq_getElem _ _ hz, List.getD_eq_getElem _ _ h1, List.getD_eq_getElem _ _ h2,
    List.getElem_zipWith]

/-- C6: when the perimeter-link classification is available,
`unbound_corners` returns exactly (as a set) the non-sentinel corner ids that
are an endpoint of some face classified as a perimeter face but not as a
perimeter link; no other corner is slated for removal at this stage. -/
theorem unbound_corners_exactness :
    ∀ (g : GraphState) (pls : List (List Int)) (c : Int),
      g.perimeter_links = some pls →
      g.mesh.corners_at_face.length = g.mesh.nodes_at_link.length →
      (c ∈ (unbound_corners g).getD [] ↔
        0 ≤ c ∧ ∃ f, f < g.mesh.corners_at_face.length ∧
          (is_perimeter_face g.mesh).getD f false = true ∧
          ((is_perimeter_link g).getD []).getD f false = false ∧
          c ∈ g.mesh.corners_at_face.getD f []) := by
  intro g pls c hpl hlen
  have hipl : is_perimeter_link g = some (pair_isin pls g.mesh.nodes_at_link) := by
    rw [is_perimeter_link, hpl]
  rw [unbound_corners, hipl]
  simp only [Option.map_some', Option.getD_some]
  set ipf := is_perimeter_face g.mesh with hipf
  set ipl := pair_isin pls g.mesh.nodes_at_link with hiplv
  set mismatch := List.zipWith (fun pf plk => pf && (plk != pf)) ipf ipl with hmis
  have hlenipf : ipf.length = g.mesh.corners_at_face.length := by
    simp [hipf, is_perimeter_face]
  have hlenipl : ipl.length = g.mesh.corners_at_face.length := by
    simp [hiplv, pair_isin, hlen]
  have hlenmis : mismatch.length = g.mesh.corners_at_face.length := by
    rw [hmis, List.length_zipWith]
    omega
  have hbool : ∀ a b : Bool, ((a && (b != a)) = true) ↔ (a = true ∧ b = false) := by decide
  have key : ∀ f : Nat, f ∈ whereTrue mismatch ↔
      f < g.mesh.corners_at_face.length ∧ ipf.getD f false = true ∧ ipl.getD f false = false := by
    intro f
    rw [mem_whereTrue, hlenmis]
    constructor
    · rintro ⟨hf, hv⟩
      have hf1 : f < ipf.length := by omega
      have hf2 : f < ipl.length := by omega
      rw [hmis, getD_zipWith _ ipf ipl hf1 hf2 false false false] at hv
      rcases (hbool _ _).mp hv with ⟨ha, hb⟩
      exact ⟨hf, ha, hb⟩
    · rintro ⟨hf, ha, hb⟩
      have hf1 : f < ipf.length := by omega
      have hf2 : f < ipl.length := by omega
      refine ⟨hf, ?_⟩
      rw [hmis, getD_zipWith _ ipf ipl hf1 hf2 false false false]
      exact (hbool _ _).mpr ⟨ha, hb⟩
  constructor
  · intro hc
    rcases List.mem_filter.mp hc with ⟨hmem, h0⟩
    rcases List.mem_flatten.mp hmem with ⟨row, hrow, hcrow⟩
    rcases List.mem_map.mp hrow with ⟨f, hf, rfl⟩
    rcases (key f).mp hf with ⟨hflt, hfa, hfb⟩
    exact ⟨by simpa using h0, f, hflt, hfa, hfb, hcrow⟩
  · rintro ⟨h0, f, hflt, hfa, hfb, hcin⟩
    refine List.mem_filter.mpr ⟨?_, by simpa using h0⟩
    exact List.mem_flatten.mpr
      ⟨g.mesh.corners_at_face.getD f [],
        List.mem_map.mpr ⟨f, (key f).mpr ⟨hflt, hfa, hfb⟩, rfl⟩, hcin⟩

/-- Witness for C6 on `exPrim` with the partial perimeter: corner `0` is an
endpoint of the mismatched unbounded face `5` and is returned by
`unbound_corners`. -/
theorem unbound_corners_exactness_witness :
    (0 : Int) ∈ (unbound_corners ⟨voronoiDelaunayMesh exPrim, some exPerimeterPartial⟩).getD [] :=
  (unbound_corners_exactness ⟨voronoiDelaunayMesh exPrim, some exPerimeterPartial⟩
      exPerimeterPartial 0 rfl (by decide)).mpr
    ⟨by decide, 5, by decide, by decide, by decide, by decide⟩

theorem updateVar_comm (n₁ n₂ : VarName) (f : Int → Int) (m : Mesh) :
    updateVar n₁ f (updateVar n₂ f m) = updateVar n₂ f (updateVar n₁ f m) := by
  cases n₁ <;> cases n₂ <;> rfl

theorem renumberPass_perm (k : Kind) (ds : List Nat) {o₁ o₂ : List VarName}
    (h : o₁.Perm o₂) (m : Mesh) :
    renumberPass k ds o₁ m = renumberPass k ds o₂ m := by
  unfold renumberPass
  haveI : RightCommutative
      (fun m' n => if prefixMatch k n then updateVar n (renumber ds) m' else m') :=
    ⟨fun m' n₁ n₂ => by
      by_cases h₁ : prefixMatch k n₁ <;> by_cases h₂ : prefixMatch k n₂ <;>
        simp [h₁, h₂, updateVar_comm]⟩
  exact h.foldl_eq m

theorem dropElementOrd_canonical (m : Mesh) (ids : List Nat) (k : Kind) :
    dropElementOrd m ids k canonicalOrder = drop_element m ids k := by
  cases k <;> rfl

theorem dropElementOrd_perm (m : Mesh) (ids : List Nat) (k : Kind) {o : List VarName}
    (h : o.Perm canonicalOrder) :
    dropElementOrd m ids k o = drop_element m ids k := by
  rw [← dropElementOrd_canonical m ids k]
  unfold dropElementOrd
  exact renumberPass_perm k _ h _

theorem voronoiDelaunayToGraphOrd_canonical :
    ∀ (v : VoronoiPrimitive) (pl : Option (List (List Int))) (o : List VarName),
      o.Perm canonicalOrder →
      voronoiDelaunayToGraphOrd v pl o = voronoiDelaunayToGraph v pl := by
  intro v pl o h
  have hd : ∀ m ids k, dropElementOrd m ids k o = drop_element m ids k :=
    fun m ids k => dropElementOrd_perm m ids k h
  simp only [voronoiDelaunayToGraphOrd, voronoiDelaunayToGraph,
    drop_cornersOrd, drop_corners, drop_perimeter_facesOrd, drop_perimeter_faces,
    drop_perimeter_cellsOrd, drop_perimeter_cells, hd]

/-- C8: the full construction-and-reduction pipeline is deterministic — its
output is a function of the primitive's output and the perimeter-link argument
only, and in particular it is insensitive to the iteration order of the
dataset-variables dictionary (the only iteration whose order could introduce
hidden nondeterminism): two runs with any two variable orders produce
identical output arrays for every accessor. -/
theorem pipeline_deterministic :
    ∀ (v : VoronoiPrimitive) (pl : Option (List (List Int))) (o₁ o₂ : List VarName),
      o₁.Perm canonicalOrder → o₂.Perm canonicalOrder →
      voronoiDelaunayToGraphOrd v pl o₁ = voronoiDelaunayToGraphOrd v pl o₂ := by
  intro v pl o₁ o₂ h₁ h₂
  rw [voronoiDelaunayToGraphOrd_canonical v pl o₁ h₁,
    voronoiDelaunayToGraphOrd_canonical v pl o₂ h₂]

/-- Witness for C8: the reversed variable order yields the same reduced graph
as the canonical order on the concrete example. -/
theorem pipeline_deterministic_witness :
    List.Perm canonicalOrder.reverse canonicalOrder ∧
      voronoiDelaunayToGraphOrd exPrim (some exPerimeter) canonicalOrder.reverse
        = voronoiDelaunayToGraphOrd exPrim (some exPerimeter) canonicalOrder :=
  ⟨by decide,
    pipeline_deterministic exPrim (some exPerimeter) canonicalOrder.reverse canonicalOrder
      (by decide) (by decide)⟩

theorem pipeline_eq_result (v : VoronoiPrimitive) (pls : List (List Int)) :
    voronoiDelaunayToGraph v (some pls) = some (pipelineResult v pls) := rfl

/-- C1: `drop_element(ids, kind)` filters every per-element array of the kind
to the kept rows in the original relative order and rebuilds the identity
array as `0..new_count-1`; under the dataset's length invariant, the kind's
dimension shrinks to `count - ids.length` and the invariant is preserved, so
the index space stays contiguous.  After the full pipeline, both identity
arrays hold exactly `0..count-1`. -/
theorem drop_element_contiguous :
    ∀ (m : Mesh) (ids : List Nat) (k : Kind),
      ids.Nodup → (∀ i ∈ ids, i < dims m k) →
      (rowFilterClaim ids m (drop_element m ids k) k ∧
        (kindLenWF m k →
          dims (drop_element m ids k) k = dims m k - ids.length ∧
          kindLenWF (drop_element m ids k) k)) ∧
      (∀ (v : VoronoiPrimitive) (pl : Option (List (List Int))) (g : GraphState),
        voronoiDelaunayToGraph v pl = some g →
        g.mesh.node = (List.range (dims g.mesh .node)).map (fun i : Nat => (i : Int)) ∧
        g.mesh.corner = (List.range (dims g.mesh .corner)).map (fun i : Nat => (i : Int))) := by
  intro m ids k hnd hv
  have hkl : ∀ {α : Type} (xs : List α) (d : α), xs.length = dims m k →
      (keptOf ids xs d).length = dims m k - ids.length := by
    intro α xs d hlen
    have hv' : ∀ i ∈ ids, i < xs.length := fun i hi => by rw [hlen]; exact hv i hi
    rw [keptOf_length d hnd hv', hlen]
  refine ⟨⟨?_, ?_⟩, ?_⟩
  · cases k
    case node =>
      exact ⟨keepRows_isKeeper_eq_keptOf ids m.x_of_node 0,
        keepRows_isKeeper_eq_keptOf ids m.y_of_node 0,
        keepRows_isKeeper_eq_keptOf ids m.cell_at_node 0,
        congrArg (fun xs : List Int => (List.range xs.length).map (fun i : Nat => (i : Int)))
          (keepRows_isKeeper_eq_keptOf ids m.x_of_node 0)⟩
    case corner =>
      exact ⟨keepRows_isKeeper_eq_keptOf ids m.x_of_corner 0,
        keepRows_isKeeper_eq_keptOf ids m.y_of_corner 0,
        congrArg (fun xs : List Int => (List.range xs.length).map (fun i : Nat => (i : Int)))
          (keepRows_isKeeper_eq_keptOf ids m.x_of_corner 0)⟩
    case link => exact keepRows_isKeeper_eq_keptOf ids m.nodes_at_link []
    case face =>
      exact ⟨keepRows_isKeeper_eq_keptOf ids m.corners_at_face [],
        keepRows_isKeeper_eq_keptOf ids m.nodes_at_face []⟩
    case patch =>
      exact ⟨keepRows_isKeeper_eq_keptOf ids m.nodes_at_patch [],
        keepRows_isKeeper_eq_keptOf ids m.links_at_patch []⟩
    case cell =>
      exact ⟨keepRows_isKeeper_eq_keptOf ids m.corners_at_cell [],
        keepRows_isKeeper_eq_keptOf ids m.n_corners_at_cell 0,
        keepRows_isKeeper_eq_keptOf ids m.node_at_cell 0,
        keepRows_isKeeper_eq_keptOf ids m.faces_at_cell []⟩
  · intro hwf
    cases k
    case node =>
      obtain ⟨hwx, hwy, hwc⟩ := hwf
      have hdims : dims (drop_element m ids .node) .node
          = (keepRows (isKeeper (sortIds ids)) m.x_of_node).length := by
        show ((List.range _).map _).length = _
        rw [List.length_map, List.length_range]
      have hx : (keepRows (isKeeper (sortIds ids)) m.x_of_node).length
          = dims m .node - ids.length := by
        rw [keepRows_isKeeper_eq_keptOf ids m.x_of_node 0]; exact hkl m.x_of_node 0 hwx
      refine ⟨by rw [hdims, hx], ?_, ?_, ?_⟩
      · show (keepRows (isKeeper (sortIds ids)) m.x_of_node).length = _
        rw [hdims]
      · show (keepRows (isKeeper (sortIds ids)) m.y_of_node).length = _
        rw [hdims, hx, keepRows_isKeeper_eq_keptOf ids m.y_of_node 0, hkl m.y_of_node 0 hwy]
      · show (keepRows (isKeeper (sortIds ids)) m.cell_at_node).length = _
        rw [hdims, hx, keepRows_isKeeper_eq_keptOf ids m.cell_at_node 0,
          hkl m.cell_at_node 0 hwc]
    case corner =>
      obtain ⟨hwx, hwy⟩ := hwf
      have hdims : dims (drop_element m ids .corner) .corner
          = (keepRows (isKeeper (sortIds ids)) m.x_of_corner).length := by
        show ((List.range _).map _).length = _
        rw [List.length_map, List.length_range]
      have hx : (keepRows (isKeeper (sortIds ids)) m.x_of_corner).length
          = dims m .corner - ids.length := by
        rw [keepRows_isKeeper_eq_keptOf ids m.x_of_corner 0]; exact hkl m.x_of_corner 0 hwx
      refine ⟨by rw [hdims, hx], ?_, ?_⟩
      · show (keepRows (isKeeper (sortIds ids)) m.x_of_corner).length = _
        rw [hdims]
      · show (keepRows (isKeeper (sortIds ids)) m.y_of_corner).length = _
        rw [hdims, hx, keepRows_isKeeper_eq_keptOf ids m.y_of_corner 0,
          hkl m.y_of_corner 0 hwy]
    case link =>
      refine ⟨?_, trivial⟩
      show (keepRows (isKeeper (sortIds ids)) m.nodes_at_link).length = _
      rw [keepRows_isKeeper_eq_keptOf ids m.nodes_at_link []]
      exact hkl m.nodes_at_link [] rfl
    case face =>
      have hdims : dims (drop_element m ids .face) .face
          = dims m .face - ids.length := by
        show (keepRows (isKeeper (sortIds ids)) m.corners_at_face).length = _
        rw [keepRows_isKeeper_eq_keptOf ids m.corners_at_face []]
        exact hkl m.corners_at_face [] rfl
      refine ⟨hdims, ?_⟩
      show (keepRows (isKeeper (sortIds ids)) m.nodes_at_face).length = _
      rw [hdims, keepRows_isKeeper_eq_keptOf ids m.nodes_at_face [],
        hkl m.nodes_at_face [] hwf]
    case patch =>
      have hdims : dims (drop_element m ids .patch) .patch
          = dims m .patch - ids.length := by
        show (keepRows (isKeeper (sortIds ids)) m.nodes_at_patch).length = _
        rw [keepRows_isKeeper_eq_keptOf ids m.nodes_at_patch []]
        exact hkl m.nodes_at_patch [] rfl
      refine ⟨hdims, ?_⟩
      show (keepRows (isKeeper (sortIds ids)) m.links_at_patch).length = _
      rw [hdims, keepRows_isKeeper_eq_keptOf ids m.links_at_patch [],
        hkl m.links_at_patch [] hwf]
    case cell =>
      obtain ⟨hwn, hwa, hwff⟩ := hwf
      have hdims : dims (drop_element m ids .cell) .cell
          = dims m .cell - ids.length := by
        show (keepRows (isKeeper (sortIds ids)) m.corners_at_cell).length = _
        rw [keepRows_isKeeper_eq_keptOf ids m.corners_at_cell []]
        exact hkl m.corners_at_cell [] rfl
      refine ⟨hdims, ?_, ?_, ?_⟩
      · show (keepRows (isKeeper (sortIds ids)) m.n_corners_at_cell).length = _
        rw [hdims, keepRows_isKeeper_eq_keptOf ids m.n_corners_at_cell 0,
          hkl m.n_corners_at_cell 0 hwn]
      · show (keepRows (isKeeper (sortIds ids)) m.node_at_cell).length = _
        rw [hdims, keepRows_isKeeper_eq_keptOf ids m.node_at_cell 0,
          hkl m.node_at_cell 0 hwa]
      · show (keepRows (isKeeper (sortIds ids)) m.faces_at_cell).length = _
        rw [hdims, keepRows_isKeeper_eq_keptOf ids m.faces_at_cell [],
          hkl m.faces_at_cell [] hwff]
  · intro v pl g h
    cases pl with
    | none => exact Option.noConfusion h
    | some pls =>
        rw [pipeline_eq_result] at h
        have hg : g = pipelineResult v pls := (Option.some.inj h).symm
        subst hg
        constructor
        · have hnode : (pipelineResult v pls).mesh.node
              = (List.range v.points.length).map (fun i : Nat => (i : Int)) := rfl
          have hd : dims (pipelineResult v pls).mesh .node = v.points.length := by
            show (pipelineResult v pls).mesh.node.length = _
            rw [hnode, List.length_map, List.length_range]
          rw [hd, hnode]
        · have hcorner : (pipelineResult v pls).mesh.corner
              = (List.range (pipelineResult v pls).mesh.x_of_corner.length).map
                  (fun i : Nat => (i : Int)) := rfl
          have hd : dims (pipelineResult v pls).mesh .corner
              = (pipelineResult v pls).mesh.x_of_corner.length := by
            show (pipelineResult v pls).mesh.corner.length = _
            rw [hcorner, List.length_map, List.length_range]
          rw [hd, hcorner]

/-- Witness for C1: dropping corner `0` from `exMesh5`, and the identity
arrays of the reduced example graph. -/
theorem drop_element_contiguous_witness :
    rowFilterClaim [0] exMesh5 (drop_element exMesh5 [0] .corner) .corner ∧
      dims (drop_element exMesh5 [0] .corner) .corner = dims exMesh5 .corner - 1 ∧
      exReduced.mesh.corner
        = (List.range (dims exReduced.mesh .corner)).map (fun i : Nat => (i : Int)) := by
  have h := drop_element_contiguous exMesh5 [0] .corner (by decide) (by decide)
  refine ⟨h.1.1, (h.1.2 ⟨rfl, rfl⟩).1, ?_⟩
  exact (h.2 exPrim (some exPerimeter) exReduced (by decide)).2

theorem reverse_one_to_one_length (ids : List Int) (n_out : Nat) :
    (reverse_one_to_one ids n_out).length = n_out := by
  simp [reverse_one_to_one]

theorem reverse_one_to_one_getD {ids : List Int} {n_out c : Nat} (hc : c < n_out)
    {n : Nat} (hn : n < ids.length) (hval : ids.getD n (-1) = (c : Int)) :
    ∃ nn, nn < ids.length ∧ ids.getD nn (-1) = (c : Int) ∧
      (reverse_one_to_one ids n_out).getD c (-1) = (nn : Int) := by
  have hgd : (reverse_one_to_one ids n_out).getD c (-1)
      = (match (List.range ids.length).find? (fun j => ids.getD j (-1) == (c : Int)) with
          | some j => (j : Int)
          | none => -1) := by
    rw [reverse_one_to_one]
    have hc' : c < (List.range n_out).length := by simpa using hc
    rw [getD_map _ _ hc' (-1) 0]
    have : (List.range n_out).getD c 0 = c := by
      rw [List.getD_eq_getElem _ _ hc', List.getElem_range]
    rw [this]
  cases hfind : (List.range ids.length).find? (fun j => ids.getD j (-1) == (c : Int)) with
  | none =>
      exfalso
      have hnone := List.find?_eq_none.mp hfind n (List.mem_range.mpr hn)
      refine hnone ?_
      show (ids.getD n (-1) == (c : Int)) = true
      rw [hval]
      simp
  | some j =>
      have hj1 : j ∈ List.range ids.length := List.mem_of_find?_eq_some hfind
      have hj2 := List.find?_some hfind
      refine ⟨j, List.mem_range.mp hj1, by simpa using hj2, ?_⟩
      rw [hgd, hfind]

theorem whereTrue_nodup (bs : List Bool) : (whereTrue bs).Nodup :=
  (List.nodup_range _).filter _

theorem renumber_mem_eq_neg {D : List Nat} (hnd : D.Nodup) {i : Nat} (hmem : i ∈ D) :
    renumber (sortIds D) (i : Int) = -1 := by
  rw [renumber_eq_specRenumber hnd, specRenumber,
    if_pos (List.mem_map.mpr ⟨i, hmem, rfl⟩)]

/-- The cell drop preserves the exact-inverse pairing of `node_at_cell` and
`cell_at_node`: surviving cells keep their anchor, anchors stay unique, and
every node still anchoring a cell maps back. -/
theorem cell_drop_inverse_pairing (m : Mesh) (D : List Nat) (hDnd : D.Nodup)
    (hinv : ∀ c, c < m.node_at_cell.length → ∃ n, n < m.cell_at_node.length ∧
        m.cell_at_node.getD n (-1) = (c : Int) ∧ m.node_at_cell.getD c (-1) = (n : Int))
    (hbound : ∀ n, n < m.cell_at_node.length → ∃ c, c < m.node_at_cell.length ∧
        m.cell_at_node.getD n (-1) = (c : Int))
    (hinj : ∀ n₁ n₂, n₁ < m.cell_at_node.length → n₂ < m.cell_at_node.length →
        m.cell_at_node.getD n₁ (-1) = m.cell_at_node.getD n₂ (-1) → n₁ = n₂) :
    (∀ c, c < (drop_element m D .cell).node_at_cell.length →
      0 ≤ (drop_element m D .cell).node_at_cell.getD c (-1) ∧
      (drop_element m D .cell).cell_at_node.getD
          ((drop_element m D .cell).node_at_cell.getD c (-1)).toNat (-1) = (c : Int) ∧
      (∀ n, n < (drop_element m D .cell).cell_at_node.length →
        (drop_element m D .cell).cell_at_node.getD n (-1) = (c : Int) →
        (n : Int) = (drop_element m D .cell).node_at_cell.getD c (-1))) ∧
    (∀ n, n < (drop_element m D .cell).cell_at_node.length →
      0 ≤ (drop_element m D .cell).cell_at_node.getD n (-1) →
      (drop_element m D .cell).node_at_cell.getD
          ((drop_element m D .cell).cell_at_node.getD n (-1)).toNat (-1) = (n : Int)) := by
  have hkeq : (drop_element m D .cell).node_at_cell = keptOf D m.node_at_cell (-1) :=
    keepRows_isKeeper_eq_keptOf D m.node_at_cell (-1)
  have hcan : (drop_element m D .cell).cell_at_node
      = m.cell_at_node.map (renumber (sortIds D)) := rfl
  have hcanlen : (drop_element m D .cell).cell_at_node.length = m.cell_at_node.length := by
    rw [hcan, List.length_map]
  have hkept_nodup : ((List.range m.node_at_cell.length).filter
      (fun j => decide (j ∉ D))).Nodup := (List.nodup_range _).filter _
  have hmem_kept : ∀ {j : Nat},
      j ∈ (List.range m.node_at_cell.length).filter (fun j => decide (j ∉ D)) ↔
        j < m.node_at_cell.length ∧ j ∉ D := by
    intro j
    simp [List.mem_filter, List.mem_range]
  have hrank : ∀ {i : Nat}, i < m.node_at_cell.length → i ∉ D →
      renumber (sortIds D) (i : Int)
        = (((List.range i).filter (fun j => decide (j ∉ D))).length : Int) := by
    intro i _ hiD
    rw [renumber_rank hDnd hiD, List.countP_eq_length_filter]
  have hrkspec : ∀ {i : Nat}, i < m.node_at_cell.length → i ∉ D →
      ((List.range i).filter (fun j => decide (j ∉ D))).length
          < ((List.range m.node_at_cell.length).filter (fun j => decide (j ∉ D))).length ∧
      ((List.range m.node_at_cell.length).filter (fun j => decide (j ∉ D))).getD
          ((List.range i).filter (fun j => decide (j ∉ D))).length 0 = i := by
    intro i hi hiD
    exact getD_filter_range_rank hi (by simpa using hiD)
  constructor
  · intro c hc
    have hc' : c < ((List.range m.node_at_cell.length).filter
        (fun j => decide (j ∉ D))).length := by
      rw [hkeq, keptOf, List.length_map] at hc
      exact hc
    have hival : (drop_element m D .cell).node_at_cell.getD c (-1)
        = m.node_at_cell.getD (((List.range m.node_at_cell.length).filter
            (fun j => decide (j ∉ D))).getD c 0) (-1) := by
      rw [hkeq, keptOf, getD_map _ _ hc' (-1) 0]
    set i := ((List.range m.node_at_cell.length).filter (fun j => decide (j ∉ D))).getD c 0
      with hidef
    have hi_mem : i ∈ (List.range m.node_at_cell.length).filter (fun j => decide (j ∉ D)) := by
      rw [hidef, List.getD_eq_getElem _ _ hc']
      exact List.getElem_mem hc'
    obtain ⟨hiL, hiD⟩ := hmem_kept.mp hi_mem
    obtain ⟨n, hnlt, hprn, hn0i⟩ := hinv i hiL
    have hval : (drop_element m D .cell).node_at_cell.getD c (-1) = (n : Int) := by
      rw [hival, hn0i]
    have hrenc : renumber (sortIds D) (i : Int) = (c : Int) := by
      obtain ⟨hrlt, hrget⟩ := hrkspec hiL hiD
      have hceq : ((List.range i).filter (fun j => decide (j ∉ D))).length = c := by
        have h1 : ((List.range m.node_at_cell.length).filter (fun j => decide (j ∉ D))).getD
            ((List.range i).filter (fun j => decide (j ∉ D))).length 0
              = ((List.range m.node_at_cell.length).filter (fun j => decide (j ∉ D))).getD c 0 := by
          rw [hrget, hidef]
        rw [List.getD_eq_getElem _ _ hrlt, List.getD_eq_getElem _ _ hc'] at h1
        exact (hkept_nodup.getElem_inj_iff.mp h1)
      rw [hrank hiL hiD, hceq]
    refine ⟨by rw [hval]; exact Int.natCast_nonneg n, ?_, ?_⟩
    · rw [hval]
      have htn : ((n : Int)).toNat = n := Int.toNat_natCast n
      rw [htn, hcan, getD_map _ _ hnlt (-1) (-1), hprn, hrenc]
    · intro n₂ hn₂ hval₂
      have hn₂' : n₂ < m.cell_at_node.length := by rw [hcanlen] at hn₂; exact hn₂
      rw [hcan, getD_map _ _ hn₂' (-1) (-1)] at hval₂
      obtain ⟨c₂, hc₂L, hprc₂⟩ := hbound n₂ hn₂'
      rw [hprc₂] at hval₂
      by_cases hc₂D : c₂ ∈ D
      · rw [renumber_mem_eq_neg hDnd hc₂D] at hval₂
        omega
      · rw [hrank hc₂L hc₂D] at hval₂
        have hr₂ : ((List.range c₂).filter (fun j => decide (j ∉ D))).length = c := by
          omega
        obtain ⟨hrlt₂, hrget₂⟩ := hrkspec hc₂L hc₂D
        have hc₂i : c₂ = i := by
          rw [hr₂] at hrget₂
          rw [hidef, ← hrget₂]
        have hn₂n : n₂ = n := by
          refine hinj n₂ n hn₂' hnlt ?_
          rw [hprc₂, hprn, hc₂i]
        rw [hval, hn₂n]
  · intro n hn hpos
    have hn' : n < m.cell_at_node.length := by rw [hcanlen] at hn; exact hn
    have hvaln : (drop_element m D .cell).cell_at_node.getD n (-1)
        = renumber (sortIds D) (m.cell_at_node.getD n (-1)) := by
      rw [hcan, getD_map _ _ hn' (-1) (-1)]
    obtain ⟨c₂, hc₂L, hprc₂⟩ := hbound n hn'
    rw [hvaln, hprc₂]
    by_cases hc₂D : c₂ ∈ D
    · exfalso
      rw [hvaln, hprc₂, renumber_mem_eq_neg hDnd hc₂D] at hpos
      omega
    · rw [hrank hc₂L hc₂D]
      have htn : (((((List.range c₂).filter (fun j => decide (j ∉ D))).length : Nat)) : Int).toNat
          = ((List.range c₂).filter (fun j => decide (j ∉ D))).length :=
        Int.toNat_natCast _
      rw [htn]
      obtain ⟨hrlt₂, hrget₂⟩ := hrkspec hc₂L hc₂D
      rw [hkeq, keptOf, getD_map _ _ hrlt₂ (-1) 0, hrget₂]
      obtain ⟨n₃, hn₃lt, hpr₃, hn0₃⟩ := hinv c₂ hc₂L
      rw [hn0₃]
      have : n₃ = n := by
        refine hinj n₃ n hn₃lt hn' ?_
        rw [hpr₃, hprc₂]
      rw [this]

/-- C3: when `cell_at_node` (the primitive's point-to-region map) is a
one-to-one correspondence between nodes and cells, then after the full
construction-and-reduction pipeline `node_at_cell` and `cell_at_node` are
exact inverses on the surviving elements: every surviving cell holds a valid
anchor node with `cell_at_node[node_at_cell[c]] = c`, that anchor is unique,
and conversely every node still anchoring a cell maps back to itself. -/
theorem node_cell_inverse_after_pipeline :
    ∀ (v : VoronoiPrimitive) (pls : List (List Int)) (g : GraphState),
      voronoiDelaunayToGraph v (some pls) = some g →
      (∀ n₁ ∈ List.range v.point_region.length, ∀ n₂ ∈ List.range v.point_region.length,
        v.point_region.getD n₁ (-1) = v.point_region.getD n₂ (-1) → n₁ = n₂) →
      (∀ c ∈ List.range v.regions.length, ∃ n ∈ List.range v.point_region.length,
        v.point_region.getD n (-1) = (c : Int)) →
      (∀ n ∈ List.range v.point_region.length, ∃ c ∈ List.range v.regions.length,
        v.point_region.getD n (-1) = (c : Int)) →
      (∀ c, c < g.mesh.node_at_cell.length →
        0 ≤ g.mesh.node_at_cell.getD c (-1) ∧
        g.mesh.cell_at_node.getD (g.mesh.node_at_cell.getD c (-1)).toNat (-1) = (c : Int) ∧
        (∀ n, n < g.mesh.cell_at_node.length →
          g.mesh.cell_at_node.getD n (-1) = (c : Int) →
          (n : Int) = g.mesh.node_at_cell.getD c (-1))) ∧
      (∀ n, n < g.mesh.cell_at_node.length →
        0 ≤ g.mesh.cell_at_node.getD n (-1) →
        g.mesh.node_at_cell.getD (g.mesh.cell_at_node.getD n (-1)).toNat (-1) = (n : Int)) := by
  intro v pls g h hinj hsurj hrange
  rw [pipeline_eq_result] at h
  have hg : g = pipelineResult v pls := (Option.some.inj h).symm
  subst hg
  set mF := (drop_perimeter_faces (drop_corners ⟨meshPre v, some pls⟩ (ucPre v pls))).mesh
    with hmF
  set D := whereTrue (is_perimeter_cell mF) with hDdef
  have hres : (pipelineResult v pls).mesh = drop_element mF D .cell := rfl
  have hFnac : mF.node_at_cell
      = reverse_one_to_one v.point_region (to_padded_matrix v.regions).length := rfl
  have hFcan : mF.cell_at_node = v.point_region := rfl
  have hlen_nac : mF.node_at_cell.length = v.regions.length := by
    rw [hFnac, reverse_one_to_one_length]
    simp [to_padded_matrix]
  have hlen_can : mF.cell_at_node.length = v.point_region.length := by rw [hFcan]
  have hDnd : D.Nodup := whereTrue_nodup _
  have hinv' : ∀ c, c < mF.node_at_cell.length → ∃ n, n < mF.cell_at_node.length ∧
      mF.cell_at_node.getD n (-1) = (c : Int) ∧ mF.node_at_cell.getD c (-1) = (n : Int) := by
    intro c hc
    have hcR : c < v.regions.length := by rw [hlen_nac] at hc; exact hc
    obtain ⟨n, hnmem, hval⟩ := hsurj c (List.mem_range.mpr hcR)
    have hnlt : n < v.point_region.length := List.mem_range.mp hnmem
    have hcn : c < (to_padded_matrix v.regions).length := by
      simpa [to_padded_matrix] using hcR
    obtain ⟨nn, hnnlt, hnnval, hnnget⟩ := reverse_one_to_one_getD hcn hnlt hval
    refine ⟨nn, ?_, ?_, ?_⟩
    · rw [hlen_can]; exact hnnlt
    · rw [hFcan]; exact hnnval
    · rw [hFnac]; exact hnnget
  have hbound' : ∀ n, n < mF.cell_at_node.length → ∃ c, c < mF.node_at_cell.length ∧
      mF.cell_at_node.getD n (-1) = (c : Int) := by
    intro n hn
    rw [hlen_can] at hn
    obtain ⟨c, hcmem, hval⟩ := hrange n (List.mem_range.mpr hn)
    refine ⟨c, ?_, ?_⟩
    · rw [hlen_nac]; exact List.mem_range.mp hcmem
    · rw [hFcan]; exact hval
  have hinj' : ∀ n₁ n₂, n₁ < mF.cell_at_node.length → n₂ < mF.cell_at_node.length →
      mF.cell_at_node.getD n₁ (-1) = mF.cell_at_node.getD n₂ (-1) → n₁ = n₂ := by
    intro n₁ n₂ h₁ h₂ hval
    rw [hlen_can] at h₁ h₂
    rw [hFcan] at hval
    exact hinj n₁ (List.mem_range.mpr h₁) n₂ (List.mem_range.mpr h₂) hval
  have hmain := cell_drop_inverse_pairing mF D hDnd hinv' hbound' hinj'
  rw [hres]
  exact hmain

/-- Witness for C3: in the reduced example graph, the single surviving cell
`0` is anchored at node `0` and the two maps invert each other there. -/
theorem node_cell_inverse_after_pipeline_witness :
    exReduced.mesh.cell_at_node.getD
        (exReduced.mesh.node_at_cell.getD 0 (-1)).toNat (-1) = (0 : Int) ∧
      exReduced.mesh.node_at_cell.getD
        (exReduced.mesh.cell_at_node.getD 0 (-1)).toNat (-1) = (0 : Int) := by
  have h := node_cell_inverse_after_pipeline exPrim exPerimeter exReduced (by decide)
    (by decide) (by decide) (by decide)
  exact ⟨(h.1 0 (by decide)).2.1, h.2 0 (by decide) (by decide)⟩

end VoronoiToGraph
